import Mathlib

/-!
# django-klingon: verification of the translation lookup/caching core

Shallow embedding of `klingon/models.py`.  The Django ORM store is modelled
as an explicit list of `Translation` records, the Django cache as an
association list from string keys to Python values, and each method of the
`Translatable` mixin as a state-passing function.  Python values flowing
through the translation API are either `None` or strings, modelled by
`PyVal`; Python truthiness of those values is `PyVal.truthy`.

A `storeLookups` counter is threaded through the state: every operation that
touches the record store (`get_or_create` under `get_translation_obj`, and
the `filter` under `translations`) increments it, so "no store lookup is
performed" is an equality of counters.
-/

namespace Klingon

/-- A Python value as it flows through the klingon API: `None` or a string.
(`Translation.translation` is a nullable text column; entity attributes used
as fallback values are strings or `None` in every code path the claims
mention.) -/
inductive PyVal where
  | none
  | str (s : String)
deriving DecidableEq, Repr

/-- Python truthiness for the values above: `None` and `""` are falsy,
any other string is truthy. -/
def PyVal.truthy : PyVal → Bool
  | .none => false
  | .str s => s ≠ ""

/-- One row of the `Translation` model: a generic foreign key
(`content_type`, `object_id`), a language code, a field name and the
nullable translated text (`models.TextField(blank=True, null=True)`,
so `Option String`; Django creates it as NULL, i.e. `none`). -/
structure Translation where
  content_type : String
  object_id : Nat
  lang : String
  field : String
  translation : Option String
deriving DecidableEq, Repr

/-- The nullable `translation` column read back as a Python value
(`getattr(trans_obj, 'translation', '')` always finds the attribute,
returning `None` or the stored string). -/
def optToPy : Option String → PyVal
  | Option.none => PyVal.none
  | Option.some s => PyVal.str s

/-- A `Translatable` entity instance: its class name (`_meta.object_name`,
also standing for its content type), primary key `id`, its attributes
(for `getattr(self, field, '')`), and the declared `translatable_fields`. -/
structure Entity where
  object_name : String
  id : Nat
  attrs : List (String × PyVal)
  translatable_fields : List String
deriving DecidableEq, Repr

/-- Python `getattr(self, field, '')`: the entity's attribute value, or `''` when
no such attribute exists. -/
def getattr (e : Entity) (field : String) : PyVal :=
  match e.attrs.find? (fun p => p.1 == field) with
  | Option.some p => p.2
  | Option.none => PyVal.str ""

/-- The global mutable state: the `Translation` table, the Django cache,
and an instrumentation counter of store lookups. -/
structure KState where
  db : List Translation
  cache : List (String × PyVal)
  storeLookups : Nat
deriving DecidableEq, Repr

/-- The empty initial state: no records, empty cache. -/
def initState : KState := ⟨[], [], 0⟩

/-- Django `cache.get(key, default)`. -/
def cacheGet (c : List (String × PyVal)) (key : String) (dflt : PyVal) : PyVal :=
  match c.find? (fun p => p.1 == key) with
  | Option.some p => p.2
  | Option.none => dflt

/-- Django `cache.set(key, value)`. -/
def cacheSet (c : List (String × PyVal)) (key : String) (v : PyVal) :
    List (String × PyVal) :=
  match c with
  | [] => [(key, v)]
  | p :: rest =>
    if p.1 == key then (key, v) :: rest else p :: cacheSet rest key v

/-- Does a record match the unique key
(`content_type`, `object_id`, `lang`, `field`)? -/
def keyMatch (ct : String) (oid : Nat) (lang field : String)
    (r : Translation) : Bool :=
  r.content_type == ct && r.object_id == oid && r.lang == lang && r.field == field

/-- Model of `Translation.objects.get_or_create(object_id=..., content_type=...,
lang=..., field=...)`: return the existing record for the four-part key, or
append a fresh one whose `translation` column is NULL. -/
def get_or_create (db : List Translation) (ct : String) (oid : Nat)
    (lang field : String) : Translation × List Translation :=
  match db.find? (keyMatch ct oid lang field) with
  | Option.some r => (r, db)
  | Option.none =>
    let r : Translation := ⟨ct, oid, lang, field, Option.none⟩
    (r, db ++ [r])

/-- Method `Translatable.get_translation_obj(lang, field)`: a store lookup
(get-or-create) for this entity's key. -/
def get_translation_obj (e : Entity) (lang field : String) (s : KState) :
    Translation × KState :=
  let (r, db') := get_or_create s.db e.object_name e.id lang field
  (r, ⟨db', s.cache, s.storeLookups + 1⟩)

/-- Method `Translatable._get_translation_cache_key(lang, field)`:
`'%s:%s:%s:%s' % (self._meta.object_name, self.id, lang, field)`. -/
def _get_translation_cache_key (e : Entity) (lang field : String) : String :=
  e.object_name ++ ":" ++ Nat.repr e.id ++ ":" ++ lang ++ ":" ++ field

/-- Method `Translatable.get_translation(lang, field)`: read the cache; on a falsy
cached value get-or-create the record, take its text, fall back to the
entity attribute when that text is falsy, store the result in the cache and
return it. -/
def get_translation (e : Entity) (lang field : String) (s : KState) :
    PyVal × KState :=
  let key := _get_translation_cache_key e lang field
  let trans := cacheGet s.cache key (PyVal.str "")
  if trans.truthy then (trans, s)
  else
    let (trans_obj, s1) := get_translation_obj e lang field s
    let t1 := optToPy trans_obj.translation
    let t2 := if t1.truthy then t1 else getattr e field
    (t2, ⟨s1.db, cacheSet s1.cache key t2, s1.storeLookups⟩)

/-- Update the first record matching the predicate (the row `save()` writes,
identified by its unique key). -/
def updateFirst (db : List Translation) (p : Translation → Bool)
    (r : Translation) : List Translation :=
  match db with
  | [] => []
  | x :: xs => if p x then r :: xs else x :: updateFirst xs p r

/-- Method `Translatable.set_translation(lang, field, text)`: get-or-create the
record, set its text, save it, and write `text` into the cache. -/
def set_translation (e : Entity) (lang field text : String) (s : KState) :
    Translation × KState :=
  let (trans_obj, s1) := get_translation_obj e lang field s
  let trans_obj' := { trans_obj with translation := Option.some text }
  let db' := updateFirst s1.db (keyMatch e.object_name e.id lang field) trans_obj'
  let key := _get_translation_cache_key e lang field
  (trans_obj', ⟨db', cacheSet s1.cache key (PyVal.str text), s1.storeLookups⟩)

/-- Inner loop of `Translatable.translate()`: get-or-create one record per
translatable field for a fixed language. -/
def translateFields (e : Entity) (lang : String) (fields : List String)
    (s : KState) : List Translation × KState :=
  match fields with
  | [] => ([], s)
  | f :: fs =>
    let (r, s1) := get_translation_obj e lang f s
    let (rs, s2) := translateFields e lang fs s1
    (r :: rs, s2)

/-- Outer loop of `Translatable.translate()`: languages outer, fields inner.
`settings.LANGUAGES` is a list of `(code, name)` pairs and the code
`lang[0]` is used. -/
def translateLangs (e : Entity) (langs : List (String × String))
    (s : KState) : List Translation × KState :=
  match langs with
  | [] => ([], s)
  | l :: ls =>
    let (rs1, s1) := translateFields e l.1 e.translatable_fields s
    let (rs2, s2) := translateLangs e ls s1
    (rs1 ++ rs2, s2)

/-- Method `Translatable.translate()`: create all translation records for this
entity, for every configured language and every translatable field. -/
def translate (langs : List (String × String)) (e : Entity) (s : KState) :
    List Translation × KState :=
  translateLangs e langs s

/-- The default ordering of `Translation` querysets:
`Meta.ordering = ['lang', 'field']`, i.e. by language then field name. -/
def recLE (a b : Translation) : Prop :=
  a.lang < b.lang ∨ (a.lang = b.lang ∧ a.field ≤ b.field)

instance : DecidableRel recLE := fun a b => by
  unfold recLE; infer_instance

/-- Method `Translatable.translations(lang)`:
`Translation.objects.filter(object_id=..., content_type=..., lang=lang)`,
returned in the model's default ordering; a pure query (no record is
created), counted as one store lookup. -/
def translations (e : Entity) (lang : String) (s : KState) :
    List Translation × KState :=
  let res := List.insertionSort recLE
    (s.db.filter (fun r =>
      r.content_type == e.object_name && r.object_id == e.id && r.lang == lang))
  (res, ⟨s.db, s.cache, s.storeLookups + 1⟩)

/-- One API call of the `Translatable` mixin, for stating invariants over
arbitrary sequences of operations. -/
inductive Op where
  | translateAll (langs : List (String × String)) (e : Entity)
  | getObj (e : Entity) (lang field : String)
  | listTrans (e : Entity) (lang : String)
  | get (e : Entity) (lang field : String)
  | set (e : Entity) (lang field text : String)

/-- Execute one operation for its state effect. -/
def runOp (s : KState) (op : Op) : KState :=
  match op with
  | .translateAll langs e => (translate langs e s).2
  | .getObj e lang field => (get_translation_obj e lang field s).2
  | .listTrans e lang => (translations e lang s).2
  | .get e lang field => (get_translation e lang field s).2
  | .set e lang field text => (set_translation e lang field text s).2

/-- Execute a sequence of operations. -/
def runOps (s : KState) (ops : List Op) : KState :=
  ops.foldl runOp s

/-- The unique key of a record. -/
def keyOf (r : Translation) : String × Nat × String × String :=
  (r.content_type, r.object_id, r.lang, r.field)

/-- The `unique_together` invariant: no two records share a
(`content_type`, `object_id`, `lang`, `field`) key. -/
def UniqueKeys (db : List Translation) : Prop :=
  db.Pairwise (fun a b => keyOf a ≠ keyOf b)

/-! ### Cache lemmas -/

theorem cacheGet_cacheSet (c : List (String × PyVal)) (k : String) (v d : PyVal) :
    cacheGet (cacheSet c k v) k d = v := by
  induction c with
  | nil => simp [cacheGet, cacheSet, List.find?]
  | cons p rest ih =>
    by_cases h : p.1 = k
    · simp [cacheGet, cacheSet, h, List.find?]
    · have hb : (p.1 == k) = false := beq_false_of_ne h
      simp only [cacheSet, hb, Bool.false_eq_true, if_false]
      simpa [cacheGet, List.find?, hb] using ih

/-! ### The cache-miss read path -/

/-- On a falsy cached value, when every stored record for the key has falsy
text (NULL or `""`), `get_translation` resolves to the entity attribute,
performs one store lookup and caches the result. -/
theorem get_translation_miss (e : Entity) (lang field : String) (s : KState)
    (hc : (cacheGet s.cache (_get_translation_cache_key e lang field)
      (PyVal.str "")).truthy = false)
    (hdb : ∀ r ∈ s.db, keyMatch e.object_name e.id lang field r = true →
      (optToPy r.translation).truthy = false) :
    get_translation e lang field s =
      (getattr e field,
        ⟨(get_or_create s.db e.object_name e.id lang field).2,
         cacheSet s.cache (_get_translation_cache_key e lang field)
           (getattr e field),
         s.storeLookups + 1⟩) := by
  unfold get_translation get_translation_obj
  simp only [hc, Bool.false_eq_true, if_false]
  cases hfind : s.db.find? (keyMatch e.object_name e.id lang field) with
  | some r =>
    have hm := List.mem_of_find?_eq_some hfind
    have hp := List.find?_some hfind
    have hfalsy := hdb r hm hp
    simp [get_or_create, hfind, hfalsy]
  | none =>
    simp [get_or_create, hfind, optToPy, PyVal.truthy]

/-! ### C1, C9, C10: the fallback path -/

/-- C1: with a non-empty string attribute, no cached value and only
falsy-text (empty or absent) stored records for the key,
`get_translation` returns the entity's own attribute value. -/
theorem C1_fallback_returns_attribute (e : Entity) (lang field : String)
    (s : KState) (v : String)
    (hattr : getattr e field = PyVal.str v) (_hv : v ≠ "")
    (hc : s.cache.find?
      (fun p => p.1 == _get_translation_cache_key e lang field) = Option.none)
    (hdb : ∀ r ∈ s.db, keyMatch e.object_name e.id lang field r = true →
      (optToPy r.translation).truthy = false) :
    (get_translation e lang field s).1 = PyVal.str v := by
  have hc' : (cacheGet s.cache (_get_translation_cache_key e lang field)
      (PyVal.str "")).truthy = false := by
    simp [cacheGet, hc, PyVal.truthy]
  rw [get_translation_miss e lang field s hc' hdb, hattr]

theorem C1_fallback_returns_attribute_witness :
    (get_translation ⟨"Book", 1, [("title", PyVal.str "Hello")], ["title"]⟩
      "fr" "title" initState).1 = PyVal.str "Hello" :=
  C1_fallback_returns_attribute
    ⟨"Book", 1, [("title", PyVal.str "Hello")], ["title"]⟩ "fr" "title"
    initState "Hello" (by decide) (by decide) rfl (by simp [initState])

/-- C9: when the entity has no attribute named `field`, no cached value
exists and the stored record has falsy text, `get_translation` returns the
empty string (and in particular does not fail: it is a total function). -/
theorem C9_missing_attribute_returns_empty (e : Entity) (lang field : String)
    (s : KState)
    (hattr : e.attrs.find? (fun p => p.1 == field) = Option.none)
    (hc : s.cache.find?
      (fun p => p.1 == _get_translation_cache_key e lang field) = Option.none)
    (hdb : ∀ r ∈ s.db, keyMatch e.object_name e.id lang field r = true →
      (optToPy r.translation).truthy = false) :
    (get_translation e lang field s).1 = PyVal.str "" := by
  have hc' : (cacheGet s.cache (_get_translation_cache_key e lang field)
      (PyVal.str "")).truthy = false := by
    simp [cacheGet, hc, PyVal.truthy]
  rw [get_translation_miss e lang field s hc' hdb]
  simp [getattr, hattr]

theorem C9_missing_attribute_returns_empty_witness :
    (get_translation ⟨"Book", 1, [], ["title"]⟩ "fr" "title" initState).1
      = PyVal.str "" :=
  C9_missing_attribute_returns_empty ⟨"Book", 1, [], ["title"]⟩ "fr" "title"
    initState rfl rfl (by simp [initState])

/-- C10: on the fallback path the attribute value is returned verbatim:
an attribute holding `None` yields `None` (not `""`), and `None` is the
value written to the cache. -/
theorem C10_none_attribute_verbatim (e : Entity) (lang field : String)
    (s : KState)
    (hattr : getattr e field = PyVal.none)
    (hc : s.cache.find?
      (fun p => p.1 == _get_translation_cache_key e lang field) = Option.none)
    (hdb : ∀ r ∈ s.db, keyMatch e.object_name e.id lang field r = true →
      (optToPy r.translation).truthy = false) :
    (get_translation e lang field s).1 = PyVal.none ∧
    cacheGet (get_translation e lang field s).2.cache
      (_get_translation_cache_key e lang field) (PyVal.str "") = PyVal.none := by
  have hc' : (cacheGet s.cache (_get_translation_cache_key e lang field)
      (PyVal.str "")).truthy = false := by
    simp [cacheGet, hc, PyVal.truthy]
  rw [get_translation_miss e lang field s hc' hdb, hattr]
  exact ⟨rfl, cacheGet_cacheSet _ _ _ _⟩

theorem C10_none_attribute_verbatim_witness :
    (get_translation ⟨"Book", 1, [("title", PyVal.none)], ["title"]⟩
      "fr" "title" initState).1 = PyVal.none ∧
    cacheGet (get_translation ⟨"Book", 1, [("title", PyVal.none)], ["title"]⟩
        "fr" "title" initState).2.cache
      (_get_translation_cache_key
        ⟨"Book", 1, [("title", PyVal.none)], ["title"]⟩ "fr" "title")
      (PyVal.str "") = PyVal.none :=
  C10_none_attribute_verbatim ⟨"Book", 1, [("title", PyVal.none)], ["title"]⟩
    "fr" "title" initState (by decide) rfl (by simp [initState])

/-! ### C2: set then cached get -/

/-- After `set_translation`, the derived key holds exactly the written text
in the cache. -/
theorem set_translation_cache (e : Entity) (lang field text : String)
    (s : KState) :
    cacheGet (set_translation e lang field text s).2.cache
      (_get_translation_cache_key e lang field) (PyVal.str "")
      = PyVal.str text := by
  simp only [set_translation, get_translation_obj]
  exact cacheGet_cacheSet _ _ _ _

/-- A `get_translation` right after `set_translation` of non-empty text is
a pure cache hit: it returns the text and leaves the state untouched. -/
theorem get_after_set (e : Entity) (lang field text : String) (s : KState)
    (ht : text ≠ "") :
    get_translation e lang field (set_translation e lang field text s).2
      = (PyVal.str text, (set_translation e lang field text s).2) := by
  have hkey := set_translation_cache e lang field text s
  simp only [get_translation, hkey]
  simp [PyVal.truthy, ht]

/-- C2: after `set_translation(lang, field, text)` with non-empty text,
`get_translation(lang, field)` returns `text`, and the next call serves it
from the cache with no store lookup (the store-lookup counter is
unchanged; in fact the whole state is unchanged). -/
theorem C2_set_then_get_cached (e : Entity) (lang field text : String)
    (s : KState) (ht : text ≠ "") :
    (get_translation e lang field (set_translation e lang field text s).2).1
      = PyVal.str text ∧
    (get_translation e lang field
      (get_translation e lang field (set_translation e lang field text s).2).2).1
      = PyVal.str text ∧
    (get_translation e lang field
      (get_translation e lang field (set_translation e lang field text s).2).2).2.storeLookups
      = (get_translation e lang field (set_translation e lang field text s).2).2.storeLookups := by
  have h := get_after_set e lang field text s ht
  refine ⟨by rw [h], ?_, ?_⟩ <;> rw [h] <;> rw [h]

theorem C2_set_then_get_cached_witness :
    (get_translation ⟨"Book", 1, [("title", PyVal.str "Hello")], ["title"]⟩
      "fr" "title"
      (set_translation ⟨"Book", 1, [("title", PyVal.str "Hello")], ["title"]⟩
        "fr" "title" "Bonjour" initState).2).1 = PyVal.str "Bonjour" :=
  (C2_set_then_get_cached ⟨"Book", 1, [("title", PyVal.str "Hello")], ["title"]⟩
    "fr" "title" "Bonjour" initState (by decide)).1

/-! ### C6: empty-text record vs no record -/

/-- C6: a record stored with empty text `""` produces the same
`get_translation` result as no record for the key existing at all. -/
theorem C6_empty_text_equals_missing (e : Entity) (lang field : String)
    (s : KState)
    (hdb : ∀ r ∈ s.db, keyMatch e.object_name e.id lang field r = false) :
    (get_translation e lang field
      ⟨s.db ++ [⟨e.object_name, e.id, lang, field, Option.some ""⟩],
        s.cache, s.storeLookups⟩).1
      = (get_translation e lang field s).1 := by
  by_cases hcache : (cacheGet s.cache (_get_translation_cache_key e lang field)
      (PyVal.str "")).truthy = true
  · simp [get_translation, hcache]
  · have hc' : (cacheGet s.cache (_get_translation_cache_key e lang field)
        (PyVal.str "")).truthy = false := by
      exact Bool.eq_false_iff.mpr (fun h => hcache h)
    have hdb1 : ∀ r ∈ s.db, keyMatch e.object_name e.id lang field r = true →
        (optToPy r.translation).truthy = false := by
      intro r hr hk
      rw [hdb r hr] at hk
      exact absurd hk (by simp)
    have hdb2 : ∀ r ∈ s.db ++ [(⟨e.object_name, e.id, lang, field,
        Option.some ""⟩ : Translation)],
        keyMatch e.object_name e.id lang field r = true →
        (optToPy r.translation).truthy = false := by
      intro r hr hk
      rcases List.mem_append.mp hr with h | h
      · exact hdb1 r h hk
      · rcases List.mem_singleton.mp h with rfl
        simp [optToPy, PyVal.truthy]
    have h1 := get_translation_miss e lang field
      ⟨s.db ++ [(⟨e.object_name, e.id, lang, field, Option.some ""⟩ : Translation)], s.cache, s.storeLookups⟩ hc' hdb2
    have h2 := get_translation_miss e lang field s hc' hdb1
    rw [h1, h2]

theorem C6_empty_text_equals_missing_witness :
    (get_translation ⟨"Book", 1, [("title", PyVal.str "Hello")], ["title"]⟩
      "fr" "title" ⟨[] ++ [⟨"Book", 1, "fr", "title", Option.some ""⟩], [], 0⟩).1
      = (get_translation ⟨"Book", 1, [("title", PyVal.str "Hello")], ["title"]⟩
        "fr" "title" initState).1 :=
  C6_empty_text_equals_missing
    ⟨"Book", 1, [("title", PyVal.str "Hello")], ["title"]⟩ "fr" "title"
    initState (by simp [initState])

/-! ### C7: cache population on fallback -/

/-- C7 as stated is false: the fallback value is always written to the
cache, but a falsy cached value (here the empty string, cached for an
entity lacking the attribute) is not served on the second call — after the
attribute appears with value `"World"`, the second call returns `"World"`,
not the cached `""`. -/
theorem C7_counterexample :
    (cacheGet (get_translation ⟨"Book", 1, [], ["title"]⟩ "fr" "title"
        initState).2.cache
      (_get_translation_cache_key ⟨"Book", 1, [], ["title"]⟩ "fr" "title")
      (PyVal.str "?")
      = (get_translation ⟨"Book", 1, [], ["title"]⟩ "fr" "title" initState).1)
    ∧ (get_translation ⟨"Book", 1, [("title", PyVal.str "World")], ["title"]⟩
        "fr" "title"
        (get_translation ⟨"Book", 1, [], ["title"]⟩ "fr" "title" initState).2).1
      ≠ (get_translation ⟨"Book", 1, [], ["title"]⟩ "fr" "title" initState).1 := by
  constructor
  · rfl
  · decide

/-- C7 amended: a first `get_translation` with no cached value and no
stored text writes the computed fallback value into the cache; provided
that fallback value is truthy (non-empty, non-`None`), a second call — even
on an entity of the same type and id whose attributes have changed —
returns the cached value. -/
theorem C7_fallback_cached_when_truthy (e e' : Entity) (lang field : String)
    (s : KState)
    (hname : e'.object_name = e.object_name) (hid : e'.id = e.id)
    (hc : s.cache.find?
      (fun p => p.1 == _get_translation_cache_key e lang field) = Option.none)
    (hdb : ∀ r ∈ s.db, keyMatch e.object_name e.id lang field r = true →
      (optToPy r.translation).truthy = false)
    (hv : (getattr e field).truthy = true) :
    (get_translation e lang field s).1 = getattr e field ∧
    cacheGet (get_translation e lang field s).2.cache
      (_get_translation_cache_key e lang field) (PyVal.str "")
      = getattr e field ∧
    (get_translation e' lang field (get_translation e lang field s).2).1
      = getattr e field := by
  have hc' : (cacheGet s.cache (_get_translation_cache_key e lang field)
      (PyVal.str "")).truthy = false := by
    simp [cacheGet, hc, PyVal.truthy]
  have hmiss := get_translation_miss e lang field s hc' hdb
  have hkey : _get_translation_cache_key e' lang field
      = _get_translation_cache_key e lang field := by
    simp [_get_translation_cache_key, hname, hid]
  have hcache2 : cacheGet (get_translation e lang field s).2.cache
      (_get_translation_cache_key e lang field) (PyVal.str "")
      = getattr e field := by
    rw [hmiss]
    exact cacheGet_cacheSet _ _ _ _
  refine ⟨by rw [hmiss], hcache2, ?_⟩
  rw [hmiss]
  simp only [get_translation, hkey, cacheGet_cacheSet, hv, if_true]

theorem C7_fallback_cached_when_truthy_witness :
    (get_translation ⟨"Book", 1, [("title", PyVal.str "Hello")], ["title"]⟩
      "fr" "title" initState).1
      = getattr ⟨"Book", 1, [("title", PyVal.str "Hello")], ["title"]⟩ "title" ∧
    cacheGet (get_translation
        ⟨"Book", 1, [("title", PyVal.str "Hello")], ["title"]⟩
        "fr" "title" initState).2.cache
      (_get_translation_cache_key
        ⟨"Book", 1, [("title", PyVal.str "Hello")], ["title"]⟩ "fr" "title")
      (PyVal.str "")
      = getattr ⟨"Book", 1, [("title", PyVal.str "Hello")], ["title"]⟩ "title" ∧
    (get_translation ⟨"Book", 1, [("title", PyVal.str "World")], ["title"]⟩
        "fr" "title"
        (get_translation ⟨"Book", 1, [("title", PyVal.str "Hello")], ["title"]⟩
          "fr" "title" initState).2).1
      = getattr ⟨"Book", 1, [("title", PyVal.str "Hello")], ["title"]⟩ "title" :=
  C7_fallback_cached_when_truthy
    ⟨"Book", 1, [("title", PyVal.str "Hello")], ["title"]⟩
    ⟨"Book", 1, [("title", PyVal.str "World")], ["title"]⟩
    "fr" "title" initState rfl rfl rfl (by simp [initState]) (by decide)

/-! ### C4: uniqueness invariant -/

theorem keyMatch_iff (ct : String) (oid : Nat) (lang field : String)
    (r : Translation) :
    keyMatch ct oid lang field r = true ↔ keyOf r = (ct, oid, lang, field) := by
  simp [keyMatch, keyOf, Prod.ext_iff, and_assoc]

theorem get_or_create_found {db : List Translation} {ct : String} {oid : Nat}
    {lang field : String} {r : Translation}
    (h : db.find? (keyMatch ct oid lang field) = Option.some r) :
    get_or_create db ct oid lang field = (r, db) := by
  unfold get_or_create; rw [h]

theorem get_or_create_notfound {db : List Translation} {ct : String}
    {oid : Nat} {lang field : String}
    (h : db.find? (keyMatch ct oid lang field) = Option.none) :
    get_or_create db ct oid lang field
      = (⟨ct, oid, lang, field, Option.none⟩,
         db ++ [⟨ct, oid, lang, field, Option.none⟩]) := by
  unfold get_or_create; rw [h]

theorem keyOf_get_or_create_fst (db : List Translation) (ct : String)
    (oid : Nat) (lang field : String) :
    keyOf (get_or_create db ct oid lang field).1 = (ct, oid, lang, field) := by
  cases hfind : db.find? (keyMatch ct oid lang field) with
  | some r =>
    rw [get_or_create_found hfind]
    exact (keyMatch_iff ct oid lang field r).mp (List.find?_some hfind)
  | none =>
    rw [get_or_create_notfound hfind]
    rfl

theorem uniqueKeys_get_or_create (db : List Translation) (ct : String)
    (oid : Nat) (lang field : String) (h : UniqueKeys db) :
    UniqueKeys (get_or_create db ct oid lang field).2 := by
  cases hfind : db.find? (keyMatch ct oid lang field) with
  | some r => rw [get_or_create_found hfind]; exact h
  | none =>
    rw [get_or_create_notfound hfind]
    rw [UniqueKeys, List.pairwise_append]
    refine ⟨h, List.pairwise_singleton _ _, ?_⟩
    intro a ha b hb
    rcases List.mem_singleton.mp hb with rfl
    intro hk
    exact List.find?_eq_none.mp hfind a ha
      ((keyMatch_iff ct oid lang field a).mpr hk)

theorem mem_updateFirst {db : List Translation} {p : Translation → Bool}
    {r y : Translation} (hy : y ∈ updateFirst db p r) :
    y ∈ db ∨ (y = r ∧ ∃ x ∈ db, p x = true) := by
  induction db with
  | nil => simp [updateFirst] at hy
  | cons x xs ih =>
    by_cases hx : p x = true
    · rw [updateFirst, if_pos hx] at hy
      rcases List.mem_cons.mp hy with rfl | hy
      · exact Or.inr ⟨rfl, x, List.mem_cons_self x xs, hx⟩
      · exact Or.inl (List.mem_cons_of_mem x hy)
    · rw [updateFirst, if_neg hx] at hy
      rcases List.mem_cons.mp hy with rfl | hy
      · exact Or.inl (List.mem_cons_self y xs)
      · rcases ih hy with h' | ⟨rfl, x', hx', hpx'⟩
        · exact Or.inl (List.mem_cons_of_mem x h')
        · exact Or.inr ⟨rfl, x', List.mem_cons_of_mem x hx', hpx'⟩

theorem uniqueKeys_updateFirst {db : List Translation} {p : Translation → Bool}
    {r : Translation} (hp : ∀ x, p x = true → keyOf x = keyOf r)
    (h : UniqueKeys db) : UniqueKeys (updateFirst db p r) := by
  induction db with
  | nil => exact h
  | cons x xs ih =>
    rcases List.pairwise_cons.mp h with ⟨hx, hxs⟩
    by_cases hpx : p x = true
    · rw [UniqueKeys, updateFirst, if_pos hpx]
      refine List.pairwise_cons.mpr ⟨?_, hxs⟩
      intro y hy
      rw [← hp x hpx]
      exact hx y hy
    · rw [UniqueKeys, updateFirst, if_neg hpx]
      refine List.pairwise_cons.mpr ⟨?_, ih hxs⟩
      intro y hy
      rcases mem_updateFirst hy with h' | ⟨rfl, x', hx', hpx'⟩
      · exact hx y h'
      · rw [← hp x' hpx']
        exact hx x' hx'

theorem uniqueKeys_get_translation_obj (e : Entity) (lang field : String)
    (s : KState) (h : UniqueKeys s.db) :
    UniqueKeys (get_translation_obj e lang field s).2.db :=
  uniqueKeys_get_or_create s.db e.object_name e.id lang field h

theorem uniqueKeys_set_translation (e : Entity) (lang field text : String)
    (s : KState) (h : UniqueKeys s.db) :
    UniqueKeys (set_translation e lang field text s).2.db := by
  show UniqueKeys (updateFirst (get_or_create s.db e.object_name e.id lang field).2
    (keyMatch e.object_name e.id lang field) _)
  apply uniqueKeys_updateFirst
  · intro x hx
    rw [(keyMatch_iff e.object_name e.id lang field x).mp hx]
    exact (keyOf_get_or_create_fst s.db e.object_name e.id lang field).symm
  · exact uniqueKeys_get_or_create s.db e.object_name e.id lang field h

theorem uniqueKeys_get_translation (e : Entity) (lang field : String)
    (s : KState) (h : UniqueKeys s.db) :
    UniqueKeys (get_translation e lang field s).2.db := by
  unfold get_translation
  by_cases hc : (cacheGet s.cache (_get_translation_cache_key e lang field)
      (PyVal.str "")).truthy = true
  · simp only [hc, if_true]
    exact h
  · simp only [hc, Bool.false_eq_true, if_false]
    exact uniqueKeys_get_translation_obj e lang field s h

theorem uniqueKeys_translateFields (e : Entity) (lang : String)
    (fields : List String) :
    ∀ s : KState, UniqueKeys s.db →
      UniqueKeys (translateFields e lang fields s).2.db := by
  induction fields with
  | nil => intro s h; exact h
  | cons f fs ih =>
    intro s h
    simp only [translateFields]
    exact ih _ (uniqueKeys_get_translation_obj e lang f s h)

theorem uniqueKeys_translateLangs (e : Entity)
    (langs : List (String × String)) :
    ∀ s : KState, UniqueKeys s.db →
      UniqueKeys (translateLangs e langs s).2.db := by
  induction langs with
  | nil => intro s h; exact h
  | cons l ls ih =>
    intro s h
    simp only [translateLangs]
    exact ih _ (uniqueKeys_translateFields e l.1 e.translatable_fields s h)

theorem uniqueKeys_runOp (s : KState) (op : Op) (h : UniqueKeys s.db) :
    UniqueKeys (runOp s op).db := by
  cases op with
  | translateAll langs e => exact uniqueKeys_translateLangs e langs s h
  | getObj e lang field => exact uniqueKeys_get_translation_obj e lang field s h
  | listTrans e lang => exact h
  | get e lang field => exact uniqueKeys_get_translation e lang field s h
  | set e lang field text => exact uniqueKeys_set_translation e lang field text s h

theorem uniqueKeys_runOps (ops : List Op) :
    ∀ s : KState, UniqueKeys s.db → UniqueKeys (runOps s ops).db := by
  induction ops with
  | nil => intro s h; exact h
  | cons op ops ih => intro s h; exact ih _ (uniqueKeys_runOp s op h)

/-- C4: after any sequence of `translate`, `get_translation_obj`,
`translations`, `get_translation` and `set_translation` operations
starting from the empty store, at most one `Translation` record exists per
(`content_type`, `object_id`, `lang`, `field`) key. -/
theorem C4_at_most_one_record_per_key (ops : List Op) :
    UniqueKeys (runOps initState ops).db :=
  uniqueKeys_runOps ops initState List.Pairwise.nil

/-! ### C5: idempotence of translate -/

theorem find?_isSome_append {db t : List Translation} {p : Translation → Bool}
    (h : (db.find? p).isSome = true) : ((db ++ t).find? p).isSome = true := by
  rw [List.find?_append]
  cases hd : db.find? p with
  | none => rw [hd] at h; exact absurd h (by simp)
  | some r => simp [hd]

theorem get_or_create_db_append (db : List Translation) (ct : String)
    (oid : Nat) (lang field : String) :
    ∃ t, (get_or_create db ct oid lang field).2 = db ++ t := by
  cases hfind : db.find? (keyMatch ct oid lang field) with
  | some r => exact ⟨[], by rw [get_or_create_found hfind, List.append_nil]⟩
  | none => exact ⟨_, by rw [get_or_create_notfound hfind]⟩

theorem get_or_create_hasKey (db : List Translation) (ct : String) (oid : Nat)
    (lang field : String) :
    ((get_or_create db ct oid lang field).2.find?
      (keyMatch ct oid lang field)).isSome = true := by
  cases hfind : db.find? (keyMatch ct oid lang field) with
  | some r => rw [get_or_create_found hfind]; simp [hfind]
  | none =>
    rw [get_or_create_notfound hfind, List.find?_append, hfind]
    simp [List.find?, keyMatch]

theorem translateFields_db_append (e : Entity) (lang : String)
    (fields : List String) :
    ∀ s : KState, ∃ t, (translateFields e lang fields s).2.db = s.db ++ t := by
  induction fields with
  | nil => intro s; exact ⟨[], (List.append_nil _).symm⟩
  | cons f fs ih =>
    intro s
    simp only [translateFields]
    obtain ⟨t1, h1⟩ := get_or_create_db_append s.db e.object_name e.id lang f
    obtain ⟨t2, h2⟩ := ih (get_translation_obj e lang f s).2
    refine ⟨t1 ++ t2, ?_⟩
    rw [h2]
    have hdb : (get_translation_obj e lang f s).2.db
        = (get_or_create s.db e.object_name e.id lang f).2 := rfl
    rw [hdb, h1, List.append_assoc]

theorem translateLangs_db_append (e : Entity)
    (langs : List (String × String)) :
    ∀ s : KState, ∃ t, (translateLangs e langs s).2.db = s.db ++ t := by
  induction langs with
  | nil => intro s; exact ⟨[], (List.append_nil _).symm⟩
  | cons m ms ih =>
    intro s
    simp only [translateLangs]
    obtain ⟨t1, h1⟩ := translateFields_db_append e m.1 e.translatable_fields s
    obtain ⟨t2, h2⟩ := ih (translateFields e m.1 e.translatable_fields s).2
    refine ⟨t1 ++ t2, ?_⟩
    rw [h2, h1, List.append_assoc]

theorem translateFields_hasKey (e : Entity) (lang : String)
    (fields : List String) :
    ∀ s : KState, ∀ f ∈ fields,
      ((translateFields e lang fields s).2.db.find?
        (keyMatch e.object_name e.id lang f)).isSome = true := by
  induction fields with
  | nil => intro s f hf; cases hf
  | cons g gs ih =>
    intro s f hf
    simp only [translateFields]
    rcases List.mem_cons.mp hf with rfl | hf
    · obtain ⟨t, ht⟩ :=
        translateFields_db_append e lang gs (get_translation_obj e lang f s).2
      rw [ht]
      exact find?_isSome_append
        (get_or_create_hasKey s.db e.object_name e.id lang f)
    · exact ih _ f hf

theorem translateLangs_hasKey (e : Entity) (langs : List (String × String)) :
    ∀ s : KState, ∀ l ∈ langs, ∀ f ∈ e.translatable_fields,
      ((translateLangs e langs s).2.db.find?
        (keyMatch e.object_name e.id l.1 f)).isSome = true := by
  induction langs with
  | nil => intro s l hl; cases hl
  | cons m ms ih =>
    intro s l hl f hf
    simp only [translateLangs]
    rcases List.mem_cons.mp hl with rfl | hl
    · obtain ⟨t, ht⟩ := translateLangs_db_append e ms
        (translateFields e l.1 e.translatable_fields s).2
      rw [ht]
      exact find?_isSome_append
        (translateFields_hasKey e l.1 e.translatable_fields s f hf)
    · exact ih _ l hl f hf

theorem translateFields_noop (e : Entity) (lang : String)
    (fields : List String) :
    ∀ s : KState,
      (∀ f ∈ fields,
        (s.db.find? (keyMatch e.object_name e.id lang f)).isSome = true) →
      (translateFields e lang fields s).2.db = s.db := by
  induction fields with
  | nil => intro s _; rfl
  | cons f fs ih =>
    intro s h
    simp only [translateFields]
    obtain ⟨r, hr⟩ := Option.isSome_iff_exists.mp (h f (List.mem_cons_self f fs))
    have hdb1 : (get_translation_obj e lang f s).2.db = s.db := by
      show (get_or_create s.db e.object_name e.id lang f).2 = s.db
      rw [get_or_create_found hr]
    have h2 := ih (get_translation_obj e lang f s).2
      (by intro g hg; rw [hdb1]; exact h g (List.mem_cons_of_mem f hg))
    rw [h2, hdb1]

theorem translateLangs_noop (e : Entity) (langs : List (String × String)) :
    ∀ s : KState,
      (∀ l ∈ langs, ∀ f ∈ e.translatable_fields,
        (s.db.find? (keyMatch e.object_name e.id l.1 f)).isSome = true) →
      (translateLangs e langs s).2.db = s.db := by
  induction langs with
  | nil => intro s _; rfl
  | cons m ms ih =>
    intro s h
    simp only [translateLangs]
    have h1 : (translateFields e m.1 e.translatable_fields s).2.db = s.db :=
      translateFields_noop e m.1 e.translatable_fields s
        (fun f hf => h m (List.mem_cons_self m ms) f hf)
    have h2 := ih (translateFields e m.1 e.translatable_fields s).2
      (by intro l hl f hf; rw [h1]; exact h l (List.mem_cons_of_mem m hl) f hf)
    rw [h2, h1]

/-- C5: a second `translate()` call with the same language list and the
same `translatable_fields` leaves the record set exactly as it was after
the first call: no new records, no text changes. -/
theorem C5_translate_idempotent (langs : List (String × String)) (e : Entity)
    (s : KState) :
    (translate langs e (translate langs e s).2).2.db
      = (translate langs e s).2.db := by
  apply translateLangs_noop
  intro l hl f hf
  exact translateLangs_hasKey e langs s l hl f hf

/-! ### C8: ordering of translations(lang) -/

instance : IsTotal Translation recLE := ⟨by
  intro a b
  rcases lt_trichotomy a.lang b.lang with h | h | h
  · exact Or.inl (Or.inl h)
  · rcases le_total a.field b.field with hf | hf
    · exact Or.inl (Or.inr ⟨h, hf⟩)
    · exact Or.inr (Or.inr ⟨h.symm, hf⟩)
  · exact Or.inr (Or.inl h)⟩

instance : IsTrans Translation recLE := ⟨by
  intro a b c hab hbc
  rcases hab with h1 | ⟨h1, hf1⟩
  · rcases hbc with h2 | ⟨h2, _⟩
    · exact Or.inl (h1.trans h2)
    · exact Or.inl (h2 ▸ h1)
  · rcases hbc with h2 | ⟨h2, hf2⟩
    · exact Or.inl (h1 ▸ h2)
    · exact Or.inr ⟨h1.trans h2, hf1.trans hf2⟩⟩

/-- C8: `translations(lang)` returns the entity's records for that
language sorted by field name ascending, returns `[]` when none exist,
and creates no records (the table is unchanged; it is a pure query). -/
theorem C8_translations_sorted (e : Entity) (lang : String) (s : KState) :
    (translations e lang s).1.Pairwise (fun a b => a.field ≤ b.field) ∧
    ((∀ r ∈ s.db, (r.content_type == e.object_name && r.object_id == e.id
        && r.lang == lang) = false) → (translations e lang s).1 = []) ∧
    (translations e lang s).2.db = s.db := by
  refine ⟨?_, ?_, rfl⟩
  · have hsorted : (translations e lang s).1.Pairwise recLE :=
      List.sorted_insertionSort recLE
        (s.db.filter (fun r => r.content_type == e.object_name
          && r.object_id == e.id && r.lang == lang))
    refine List.Pairwise.imp_of_mem ?_ hsorted
    intro a b ha hb hab
    have hmem : ∀ x ∈ (translations e lang s).1, x.lang = lang := by
      intro x hx
      have hx' : x ∈ s.db.filter (fun r => r.content_type == e.object_name
          && r.object_id == e.id && r.lang == lang) :=
        (List.perm_insertionSort recLE _).mem_iff.mp hx
      have := (List.mem_filter.mp hx').2
      simp only [Bool.and_eq_true, beq_iff_eq] at this
      exact this.2
    rcases hab with h | ⟨_, hf⟩
    · rw [hmem a ha, hmem b hb] at h
      exact absurd h (lt_irrefl _)
    · exact hf
  · intro h
    have hfil : s.db.filter (fun r => r.content_type == e.object_name
        && r.object_id == e.id && r.lang == lang) = [] := by
      rw [List.filter_eq_nil_iff]
      intro a ha
      simp [h a ha]
    simp only [translations, hfil]
    rfl

theorem C8_translations_sorted_witness :
    (translations ⟨"Book", 1, [], ["title"]⟩ "fr" initState).1 = [] :=
  (C8_translations_sorted ⟨"Book", 1, [], ["title"]⟩ "fr" initState).2.1
    (by simp [initState])

/-! ### C3: cache key derivation

The key is `object_name ++ ":" ++ repr id ++ ":" ++ lang ++ ":" ++ field`.
It is not injective in general (a `:` inside `lang` shifts the boundary),
but it is once the type name and the language are free of the separator;
the decimal id never contains `:` and decodes uniquely. -/

/-- Numeric value of a decimal digit character. -/
def charVal (c : Char) : Nat := c.toNat - '0'.toNat

/-- Decode a decimal digit string left to right, starting from `a`. -/
def decodeFrom (a : Nat) (cs : List Char) : Nat :=
  cs.foldl (fun x c => x * 10 + charVal c) a

theorem decodeFrom_cons (a : Nat) (c : Char) (cs : List Char) :
    decodeFrom a (c :: cs) = decodeFrom (a * 10 + charVal c) cs := rfl

theorem charVal_digitChar : ∀ d, d < 10 → charVal (Nat.digitChar d) = d := by
  decide

theorem digitChar_ne_colon : ∀ d, d < 10 → Nat.digitChar d ≠ ':' := by
  decide

theorem toDigitsCore_decode :
    ∀ (fuel n : Nat) (acc : List Char), n < 10 ^ fuel →
      decodeFrom 0 (Nat.toDigitsCore 10 fuel n acc) = decodeFrom n acc := by
  intro fuel
  induction fuel with
  | zero =>
    intro n acc h
    interval_cases n
    rfl
  | succ f ih =>
    intro n acc h
    simp only [Nat.toDigitsCore]
    have hmod : n % 10 < 10 := Nat.mod_lt n (by norm_num)
    by_cases h10 : n / 10 = 0
    · rw [if_pos h10, decodeFrom_cons, charVal_digitChar _ hmod,
        Nat.zero_mul, Nat.zero_add]
      have hn : n < 10 := by
        have := Nat.div_add_mod n 10
        omega
      rw [Nat.mod_eq_of_lt hn]
    · rw [if_neg h10]
      have hlt : n / 10 < 10 ^ f := by
        rw [Nat.div_lt_iff_lt_mul (by norm_num : 0 < 10)]
        calc n < 10 ^ (f + 1) := h
          _ = 10 ^ f * 10 := by ring
      rw [ih (n / 10) (Nat.digitChar (n % 10) :: acc) hlt, decodeFrom_cons,
        charVal_digitChar _ hmod]
      have := Nat.div_add_mod n 10
      have heq : n / 10 * 10 + n % 10 = n := by omega
      rw [heq]

theorem decode_repr (n : Nat) : decodeFrom 0 (Nat.repr n).data = n := by
  have hpow : n < 10 ^ (n + 1) := by
    calc n < 10 ^ n := Nat.lt_pow_self (by norm_num) n
      _ ≤ 10 ^ (n + 1) := Nat.pow_le_pow_right (by norm_num) (Nat.le_succ n)
  show decodeFrom 0 (Nat.toDigitsCore 10 (n + 1) n []) = n
  rw [toDigitsCore_decode (n + 1) n [] hpow]
  rfl

theorem repr_inj {m n : Nat} (h : Nat.repr m = Nat.repr n) : m = n := by
  have h2 : decodeFrom 0 (Nat.repr m).data = decodeFrom 0 (Nat.repr n).data := by
    rw [h]
  rwa [decode_repr, decode_repr] at h2

theorem toDigitsCore_no_colon :
    ∀ (fuel n : Nat) (acc : List Char), ':' ∉ acc →
      ':' ∉ Nat.toDigitsCore 10 fuel n acc := by
  intro fuel
  induction fuel with
  | zero => intro n acc h; exact h
  | succ f ih =>
    intro n acc h
    simp only [Nat.toDigitsCore]
    have hd : Nat.digitChar (n % 10) ≠ ':' :=
      digitChar_ne_colon _ (Nat.mod_lt n (by norm_num))
    have hcons : ':' ∉ Nat.digitChar (n % 10) :: acc := by
      intro hmem
      rcases List.mem_cons.mp hmem with h' | h'
      · exact hd h'.symm
      · exact h h'
    by_cases h10 : n / 10 = 0
    · rw [if_pos h10]; exact hcons
    · rw [if_neg h10]; exact ih (n / 10) _ hcons

theorem repr_no_colon (n : Nat) : ':' ∉ (Nat.repr n).data := by
  show ':' ∉ Nat.toDigitsCore 10 (n + 1) n []
  exact toDigitsCore_no_colon (n + 1) n [] (by simp)

theorem append_colon_inj :
    ∀ (a₁ : List Char) {a₂ r₁ r₂ : List Char}, ':' ∉ a₁ → ':' ∉ a₂ →
      a₁ ++ ':' :: r₁ = a₂ ++ ':' :: r₂ → a₁ = a₂ ∧ r₁ = r₂ := by
  intro a₁
  induction a₁ with
  | nil =>
    intro a₂ r₁ r₂ _ h2 heq
    cases a₂ with
    | nil => simpa using heq
    | cons d ds =>
      rw [List.nil_append, List.cons_append] at heq
      injection heq with hc _
      subst hc
      exact absurd (List.mem_cons_self _ ds) h2
  | cons c cs ih =>
    intro a₂ r₁ r₂ h1 h2 heq
    cases a₂ with
    | nil =>
      rw [List.nil_append, List.cons_append] at heq
      injection heq with hc _
      subst hc
      exact absurd (List.mem_cons_self _ cs) h1
    | cons d ds =>
      rw [List.cons_append, List.cons_append] at heq
      injection heq with hc ht
      have h1' : ':' ∉ cs := fun hm => h1 (List.mem_cons_of_mem c hm)
      have h2' : ':' ∉ ds := fun hm => h2 (List.mem_cons_of_mem d hm)
      obtain ⟨hcs, hr⟩ := ih h1' h2' ht
      exact ⟨by rw [hc, hcs], hr⟩

theorem key_data (e : Entity) (lang field : String) :
    (_get_translation_cache_key e lang field).data
      = e.object_name.data
        ++ ':' :: ((Nat.repr e.id).data
        ++ ':' :: (lang.data ++ ':' :: field.data)) := by
  simp [_get_translation_cache_key, List.append_assoc]

/-- C3 as stated is false: the tuples `("Book", 1, "fr:x", "y")` and
`("Book", 1, "fr", "x:y")` are distinct but derive the same cache key
`"Book:1:fr:x:y"`. -/
theorem C3_counterexample :
    _get_translation_cache_key ⟨"Book", 1, [], []⟩ "fr:x" "y"
      = _get_translation_cache_key ⟨"Book", 1, [], []⟩ "fr" "x:y"
    ∧ ¬((("Book", 1, "fr:x", "y") : String × Nat × String × String)
        = ("Book", 1, "fr", "x:y")) := by
  exact ⟨rfl, by decide⟩

/-- C3 amended: the cache key derivation is injective over
(entity-type-name, entity-id, language, field) provided the type name and
the language contain no `':'` separator character (the decimal id never
contains one, and the field is the final component so it may). -/
theorem C3_cache_key_injective (e1 e2 : Entity) (l1 f1 l2 f2 : String)
    (h1 : ':' ∉ e1.object_name.data) (h2 : ':' ∉ e2.object_name.data)
    (h3 : ':' ∉ l1.data) (h4 : ':' ∉ l2.data)
    (heq : _get_translation_cache_key e1 l1 f1
      = _get_translation_cache_key e2 l2 f2) :
    e1.object_name = e2.object_name ∧ e1.id = e2.id ∧ l1 = l2 ∧ f1 = f2 := by
  have hd := congrArg String.data heq
  rw [key_data, key_data] at hd
  obtain ⟨hA, hd1⟩ := append_colon_inj _ h1 h2 hd
  obtain ⟨hB, hd2⟩ := append_colon_inj _ (repr_no_colon e1.id)
    (repr_no_colon e2.id) hd1
  obtain ⟨hC, hD⟩ := append_colon_inj _ h3 h4 hd2
  exact ⟨String.ext hA, repr_inj (String.ext hB), String.ext hC, String.ext hD⟩

theorem C3_cache_key_injective_witness :
    ("Book" : String) = "Book" ∧ (1 : Nat) = 1
      ∧ ("fr" : String) = "fr" ∧ ("title" : String) = "title" :=
  C3_cache_key_injective ⟨"Book", 1, [], []⟩ ⟨"Book", 1, [], []⟩
    "fr" "title" "fr" "title" (by decide) (by decide) (by decide) (by decide)
    rfl

end Klingon
